import Mathlib

/-
Shallow embedding of the staff-sync-queue repository (a queue-management
web app backed by a relational store).  The definitions below are
translated from:
  - src/src/components/StudentDashboard.tsx   (calculatePosition)
  - src/src/components/AdminDashboard.tsx     (fetchQueueEntries,
      callNextStudent, skipStudent, completeVisit, regenerateUniqueId)
  - src/src/components/StaffAccess.tsx        (handleSubmit: code lookup)
  - src/unnamed/part_001                      (student handleSubmit)
  - src/supabase/migrations/...sql            (get_next_queue_number,
      handle_unresponsive_students, generate_unique_staff_id)
Timestamps are modelled as natural-number seconds; the SQL interval
"5 minutes" is 300 seconds.  Row ids are natural numbers.
-/

/-- Status column of queue_entries: 'waiting' | 'called' | 'skipped' | 'completed'. -/
inductive EntryStatus
  | waiting
  | called
  | skipped
  | completed
  deriving DecidableEq, Repr

/-- Status column of queues: 'open' | 'closed' (`open` is a Lean keyword, hence `open_`). -/
inductive QueueStatus
  | open_
  | closed
  deriving DecidableEq, Repr

/-- A row of the queues table. -/
structure Queue where
  id : Nat
  staffId : Nat
  status : QueueStatus
  deriving DecidableEq, Repr

/-- A row of the queue_entries table.  calledAt is nullable (Option). -/
structure QueueEntry where
  id : Nat
  queueId : Nat
  studentName : String
  reason : String
  queueNumber : Nat
  status : EntryStatus
  calledAt : Option Nat
  deriving DecidableEq, Repr

/-- A row of the staff table (fields used by the claims). -/
structure Staff where
  id : Nat
  name : String
  email : String
  department : String
  unique_id : String
  deriving DecidableEq, Repr

/-- The shared store as seen by the operations the claims mention. -/
structure DBState where
  queues : List Queue
  entries : List QueueEntry
  deriving DecidableEq, Repr

/-- StudentDashboard.tsx calculatePosition: the query selects entries of the
entry's queue with queue_number strictly below the entry's and status in
('waiting','called'); the position is the row count plus one. -/
def calculatePosition (entries : List QueueEntry) (queueId queueNumber : Nat) : Nat :=
  (entries.filter (fun e =>
    e.queueId == queueId && e.queueNumber < queueNumber &&
      (e.status == EntryStatus.waiting || e.status == EntryStatus.called))).length + 1

/-- StudentDashboard.tsx: setEstimatedWait(position * 5), five minutes per person. -/
def estimatedWait (entries : List QueueEntry) (queueId queueNumber : Nat) : Nat :=
  calculatePosition entries queueId queueNumber * 5

/-- Position as the spec words it: one plus the number of entries of the same
queue with strictly smaller queueNumber whose status is waiting or called. -/
def specPosition (entries : List QueueEntry) (queueId queueNumber : Nat) : Nat :=
  entries.countP (fun e =>
    decide (e.queueId = queueId ∧ e.queueNumber < queueNumber ∧
      (e.status = EntryStatus.waiting ∨ e.status = EntryStatus.called))) + 1

/-- C1: for every store and entry coordinates, the computed position counts
exactly the same-queue entries with strictly smaller queueNumber in status
waiting or called, plus one, and the estimated wait is that position times
5 minutes. -/
theorem calculatePosition_counts_active_below (entries : List QueueEntry)
    (queueId queueNumber : Nat) :
    calculatePosition entries queueId queueNumber =
      specPosition entries queueId queueNumber ∧
    estimatedWait entries queueId queueNumber =
      calculatePosition entries queueId queueNumber * 5 := by
  constructor
  · unfold calculatePosition specPosition
    rw [List.countP_eq_length_filter]
    congr 1
    apply congrArg List.length
    apply List.filter_congr
    intro e _
    rw [Bool.eq_iff_iff]
    simp [and_assoc]
  · rfl

/-- Migration SQL get_next_queue_number: COALESCE(MAX(queue_number), 0) + 1
over the rows of the given queue. -/
def get_next_queue_number (entries : List QueueEntry) (queueId : Nat) : Nat :=
  ((entries.filter (fun e => e.queueId == queueId)).foldr
    (fun e m => max e.queueNumber m) 0) + 1

/-- Leading and trailing whitespace removal on a character list. -/
def trimChars (l : List Char) : List Char :=
  ((l.dropWhile Char.isWhitespace).reverse.dropWhile Char.isWhitespace).reverse

/-- Model of the JS String.prototype.trim() used by the components:
strip leading and trailing whitespace. -/
def strTrim (s : String) : String := ⟨trimChars s.data⟩

/-- Model of the JS String.prototype.toUpperCase() used by StaffAccess:
uppercase character by character. -/
def strUpper (s : String) : String := ⟨s.data.map Char.toUpper⟩

/-- Student handleSubmit (src/unnamed/part_001): validates the two text
fields, looks up the selected staff member's open queue with .single()
(exactly one row, else the "queue closed" failure path), asks the store for
the next queue number and inserts a waiting entry carrying it.  `newId` is
the fresh row id the store would mint. -/
def handleSubmit (st : DBState) (selectedStaffId : Nat)
    (studentName reason : String) (newId : Nat) : Except String DBState :=
  if strTrim studentName == "" || strTrim reason == "" then
    Except.error "Missing Information"
  else
    match st.queues.filter
        (fun q => q.staffId == selectedStaffId && q.status == QueueStatus.open_) with
    | [q] =>
      let n := get_next_queue_number st.entries q.id
      Except.ok ⟨st.queues,
        st.entries ++ [⟨newId, q.id, strTrim studentName, strTrim reason, n,
          EntryStatus.waiting, none⟩]⟩
    | _ => Except.error "Queue Unavailable"

/-- Insertion step for the store's ORDER BY queue_number (ascending). -/
def insertByNumber (e : QueueEntry) : List QueueEntry → List QueueEntry
  | [] => [e]
  | x :: xs =>
    if e.queueNumber ≤ x.queueNumber then e :: x :: xs
    else x :: insertByNumber e xs

/-- Sort a list of entries by queueNumber ascending (ORDER BY queue_number). -/
def sortByNumber (l : List QueueEntry) : List QueueEntry :=
  l.foldr insertByNumber []

/-- AdminDashboard.tsx fetchQueueEntries: rows of the queue with status in
('waiting','called'), ordered by queue_number. -/
def fetchQueueEntries (entries : List QueueEntry) (queueId : Nat) : List QueueEntry :=
  sortByNumber (entries.filter (fun e =>
    e.queueId == queueId &&
      (e.status == EntryStatus.waiting || e.status == EntryStatus.called)))

/-- Outcome of callNextStudent: the store rows afterwards, and the entry
that was called (none means the "No Students Waiting" toast and no write). -/
structure CallResult where
  entries : List QueueEntry
  called : Option QueueEntry
  deriving DecidableEq, Repr

/-- The row update issued by callNextStudent: status='called',
called_at = now, on the row whose id matches. -/
def callUpdate (now : Nat) (targetId : Nat) (e : QueueEntry) : QueueEntry :=
  if e.id == targetId then { e with status := EntryStatus.called, calledAt := some now }
  else e

/-- AdminDashboard.tsx callNextStudent: find the first entry with
status='waiting' in the fetched (queue_number-ordered) list; if none, toast
and return with no write; else update that row to called/called_at=now. -/
def callNextStudent (now : Nat) (entries : List QueueEntry) (queueId : Nat) : CallResult :=
  match (fetchQueueEntries entries queueId).find?
      (fun e => e.status == EntryStatus.waiting) with
  | none => ⟨entries, none⟩
  | some next => ⟨entries.map (callUpdate now next.id), some next⟩

/-- The row update issued by skipStudent: status='skipped' on the matching id. -/
def skipUpdate (targetId : Nat) (e : QueueEntry) : QueueEntry :=
  if e.id == targetId then { e with status := EntryStatus.skipped } else e

/-- AdminDashboard.tsx skipStudent: update queue_entries set status='skipped'
where id = studentId. -/
def skipStudent (entries : List QueueEntry) (studentId : Nat) : List QueueEntry :=
  entries.map (skipUpdate studentId)

/-- The row update issued by completeVisit: status='completed' on the matching id. -/
def completeUpdate (targetId : Nat) (e : QueueEntry) : QueueEntry :=
  if e.id == targetId then { e with status := EntryStatus.completed } else e

/-- AdminDashboard.tsx completeVisit: update queue_entries set
status='completed' where id = studentId. -/
def completeVisit (entries : List QueueEntry) (studentId : Nat) : List QueueEntry :=
  entries.map (completeUpdate studentId)

/-- Migration SQL handle_unresponsive_students deletion criterion:
status='called' AND called_at IS NOT NULL AND called_at < now - interval
'5 minutes' (300 seconds; over timestamps, called_at < now - 300 is the
same as called_at + 300 < now). -/
def shouldRemove (now : Nat) (e : QueueEntry) : Bool :=
  e.status == EntryStatus.called &&
    (match e.calledAt with
     | some t => decide (t + 300 < now)
     | none => false)

/-- Migration SQL handle_unresponsive_students: DELETE the rows matching the
criterion; the surviving table is the rest. -/
def handle_unresponsive_students (now : Nat) (entries : List QueueEntry) : List QueueEntry :=
  entries.filter (fun e => !(shouldRemove now e))

/-- Character set of upper(substr(md5(...), 1, 8)): uppercase hexadecimal. -/
def isUpperHexChar (c : Char) : Bool :=
  (decide ('0' ≤ c) && decide (c ≤ '9')) || (decide ('A' ≤ c) && decide (c ≤ 'F'))

/-- Uppercase alphanumeric character (digit or uppercase letter). -/
def isUpperAlnumChar (c : Char) : Bool :=
  (decide ('0' ≤ c) && decide (c ≤ '9')) || (decide ('A' ≤ c) && decide (c ≤ 'Z'))

/-- Migration SQL generate_unique_staff_id: loop drawing candidate codes
new_id := upper(substr(md5(random()::text), 1, 8)) until one is not already
a unique_id of an existing staff row.  The draw of md5-over-random values is
modelled by the candidate stream `cands`; `fuel` bounds the loop so the
function is total, `i` is the index of the next draw. -/
def generate_unique_staff_id (cands : Nat → String) (existing : List String) :
    Nat → Nat → Option String
  | _, 0 => none
  | i, Nat.succ fuel =>
    if existing.contains (cands i) then
      generate_unique_staff_id cands existing (i + 1) fuel
    else some (cands i)

/-- AdminDashboard.tsx regenerateUniqueId: call generate_unique_staff_id
(the old code is still stored, so it is part of `existing` during the
check), then update the staff row's unique_id to the fresh code.  Returns
the staff table afterwards and the new code. -/
def regenerateUniqueId (cands : Nat → String) (fuel : Nat)
    (staffList : List Staff) (staffId : Nat) : Option (List Staff × String) :=
  match generate_unique_staff_id cands (staffList.map (fun s => s.unique_id)) 0 fuel with
  | none => none
  | some newCode =>
    some (staffList.map
      (fun s => if s.id == staffId then { s with unique_id := newCode } else s),
      newCode)

/-- StaffAccess.tsx handleSubmit: select the staff row whose unique_id equals
the entered code trimmed and uppercased; none means the Access Denied toast. -/
def staffAccess (staffList : List Staff) (entered : String) : Option Staff :=
  staffList.find? (fun s => s.unique_id == strUpper (strTrim entered))

/-- Membership in an insertByNumber result. -/
theorem mem_insertByNumber (e a : QueueEntry) (l : List QueueEntry) :
    a ∈ insertByNumber e l ↔ a = e ∨ a ∈ l := by
  induction l with
  | nil => simp [insertByNumber]
  | cons x xs ih =>
    rw [insertByNumber]
    by_cases hle : e.queueNumber ≤ x.queueNumber
    · simp [hle]
    · simp [hle, ih]
      tauto

/-- insertByNumber preserves sortedness by queueNumber. -/
theorem pairwise_insertByNumber (e : QueueEntry) (l : List QueueEntry)
    (h : l.Pairwise (fun a b => a.queueNumber ≤ b.queueNumber)) :
    (insertByNumber e l).Pairwise (fun a b => a.queueNumber ≤ b.queueNumber) := by
  induction l with
  | nil => simp [insertByNumber]
  | cons x xs ih =>
    rw [insertByNumber]
    rw [List.pairwise_cons] at h
    by_cases hle : e.queueNumber ≤ x.queueNumber
    · simp only [hle, if_true]
      rw [List.pairwise_cons]
      refine ⟨?_, List.pairwise_cons.mpr h⟩
      intro b hb
      rcases List.mem_cons.mp hb with rfl | hbx
      · exact hle
      · exact le_trans hle (h.1 b hbx)
    · simp only [hle, if_false]
      rw [List.pairwise_cons]
      refine ⟨?_, ih h.2⟩
      intro b hb
      rcases (mem_insertByNumber e b xs).mp hb with rfl | hbx
      · omega
      · exact h.1 b hbx

/-- Membership in a sortByNumber result. -/
theorem mem_sortByNumber (a : QueueEntry) (l : List QueueEntry) :
    a ∈ sortByNumber l ↔ a ∈ l := by
  induction l with
  | nil => simp [sortByNumber]
  | cons x xs ih =>
    simp only [sortByNumber, List.foldr_cons] at ih ⊢
    rw [mem_insertByNumber, ih, List.mem_cons]

/-- sortByNumber output is sorted by queueNumber. -/
theorem pairwise_sortByNumber (l : List QueueEntry) :
    (sortByNumber l).Pairwise (fun a b => a.queueNumber ≤ b.queueNumber) := by
  induction l with
  | nil => simp [sortByNumber]
  | cons x xs ih =>
    simp only [sortByNumber, List.foldr_cons] at ih ⊢
    exact pairwise_insertByNumber x _ ih

/-- On a queueNumber-sorted list, the first element satisfying p has a
queueNumber no larger than any element satisfying p. -/
theorem find?_min_queueNumber (l : List QueueEntry) (p : QueueEntry → Bool)
    (x : QueueEntry)
    (hs : l.Pairwise (fun a b => a.queueNumber ≤ b.queueNumber))
    (hf : l.find? p = some x) :
    ∀ y ∈ l, p y = true → x.queueNumber ≤ y.queueNumber := by
  induction l with
  | nil => simp at hf
  | cons a t ih =>
    rw [List.pairwise_cons] at hs
    by_cases hpa : p a = true
    · rw [List.find?_cons_of_pos _ hpa] at hf
      injection hf with hf
      subst hf
      intro y hy _
      rcases List.mem_cons.mp hy with rfl | hyt
      · exact le_refl _
      · exact hs.1 y hyt
    · rw [List.find?_cons_of_neg _ hpa] at hf
      intro y hy hpy
      rcases List.mem_cons.mp hy with rfl | hyt
      · exact absurd hpy hpa
      · exact ih hs.2 hf y hyt hpy

/-- Members of the fetched queue view are exactly the store's rows of that
queue in status waiting or called. -/
theorem mem_fetchQueueEntries (entries : List QueueEntry) (queueId : Nat)
    (e : QueueEntry) :
    e ∈ fetchQueueEntries entries queueId ↔
      e ∈ entries ∧ e.queueId = queueId ∧
        (e.status = EntryStatus.waiting ∨ e.status = EntryStatus.called) := by
  unfold fetchQueueEntries
  rw [mem_sortByNumber, List.mem_filter]
  simp

/-- C2: callNextStudent selects a waiting entry of the queue whose
queueNumber is least among the waiting entries (never a higher-numbered
one), and updates exactly that row to status='called' with calledAt = now;
when no waiting entry exists in the queue the operation reports NotFound
("No Students Waiting") and the store is unchanged. -/
theorem callNextStudent_lowest_waiting (now : Nat) (entries : List QueueEntry)
    (queueId : Nat) :
    ((∀ e ∈ entries, e.queueId = queueId → e.status ≠ EntryStatus.waiting) →
      callNextStudent now entries queueId = ⟨entries, none⟩) ∧
    (∀ w ∈ entries, w.queueId = queueId → w.status = EntryStatus.waiting →
      ∃ sel, sel ∈ entries ∧ sel.queueId = queueId ∧
        sel.status = EntryStatus.waiting ∧
        (∀ e ∈ entries, e.queueId = queueId → e.status = EntryStatus.waiting →
          sel.queueNumber ≤ e.queueNumber) ∧
        callNextStudent now entries queueId =
          ⟨entries.map (callUpdate now sel.id), some sel⟩) := by
  constructor
  · intro hno
    have hfind : (fetchQueueEntries entries queueId).find?
        (fun e => e.status == EntryStatus.waiting) = none := by
      rw [List.find?_eq_none]
      intro x hx
      rw [mem_fetchQueueEntries] at hx
      simp only [beq_iff_eq]
      exact hno x hx.1 hx.2.1
    unfold callNextStudent
    rw [hfind]
  · intro w hw hwq hws
    have hwf : w ∈ fetchQueueEntries entries queueId :=
      (mem_fetchQueueEntries _ _ _).mpr ⟨hw, hwq, Or.inl hws⟩
    obtain ⟨sel, hfind⟩ : ∃ sel, (fetchQueueEntries entries queueId).find?
        (fun e => e.status == EntryStatus.waiting) = some sel := by
      cases hcase : (fetchQueueEntries entries queueId).find?
          (fun e => e.status == EntryStatus.waiting) with
      | none =>
        exfalso
        rw [List.find?_eq_none] at hcase
        exact hcase w hwf (by simp [hws])
      | some s => exact ⟨s, rfl⟩
    have hsel_mem := List.mem_of_find?_eq_some hfind
    rw [mem_fetchQueueEntries] at hsel_mem
    have hsel_w : sel.status = EntryStatus.waiting := by
      have := List.find?_some hfind
      simpa using this
    have hs : (fetchQueueEntries entries queueId).Pairwise
        (fun a b => a.queueNumber ≤ b.queueNumber) := pairwise_sortByNumber _
    refine ⟨sel, hsel_mem.1, hsel_mem.2.1, hsel_w, ?_, ?_⟩
    · intro e he heq hew
      exact find?_min_queueNumber _ _ _ hs hfind e
        ((mem_fetchQueueEntries _ _ _).mpr ⟨he, heq, Or.inl hew⟩) (by simp [hew])
    · unfold callNextStudent
      rw [hfind]

/-- Witness for C2 at a concrete store: entries numbered 1 and 2, both
waiting; the lowest-numbered one (queueNumber 1, id 10) is called and gets
calledAt = 40, and on a queue with no waiting entry the state is unchanged. -/
theorem callNextStudent_lowest_waiting_witness :
    callNextStudent 40
        [⟨11, 1, "Bea", "essay", 2, EntryStatus.waiting, none⟩,
         ⟨10, 1, "Ada", "advising", 1, EntryStatus.waiting, none⟩] 1 =
      ⟨[⟨11, 1, "Bea", "essay", 2, EntryStatus.waiting, none⟩,
        ⟨10, 1, "Ada", "advising", 1, EntryStatus.called, some 40⟩],
       some ⟨10, 1, "Ada", "advising", 1, EntryStatus.waiting, none⟩⟩ ∧
    callNextStudent 40
        [⟨12, 1, "Cal", "forms", 3, EntryStatus.completed, none⟩] 1 =
      ⟨[⟨12, 1, "Cal", "forms", 3, EntryStatus.completed, none⟩], none⟩ := by
  constructor
  · obtain ⟨sel, hmem, hq, hw, hmin, heq⟩ :=
      (callNextStudent_lowest_waiting 40
        [⟨11, 1, "Bea", "essay", 2, EntryStatus.waiting, none⟩,
         ⟨10, 1, "Ada", "advising", 1, EntryStatus.waiting, none⟩] 1).2
        ⟨10, 1, "Ada", "advising", 1, EntryStatus.waiting, none⟩
        (by simp) rfl rfl
    have hsel : sel = ⟨10, 1, "Ada", "advising", 1, EntryStatus.waiting, none⟩ := by
      have h10 := hmin ⟨10, 1, "Ada", "advising", 1, EntryStatus.waiting, none⟩
        (by simp) rfl rfl
      rcases List.mem_cons.mp hmem with h | h
      · exfalso
        subst h
        simp at h10
      · simpa using h
    subst hsel
    rw [heq]
    simp [callUpdate]
  · exact (callNextStudent_lowest_waiting 40
        [⟨12, 1, "Cal", "forms", 3, EntryStatus.completed, none⟩] 1).1
      (by intro e he hq; simp at he; subst he; simp)

/-- Folding max over queueNumbers with seed c equals max of the zero-seed
fold and c. -/
theorem foldr_max_shift (l : List QueueEntry) (c : Nat) :
    l.foldr (fun e m => max e.queueNumber m) c =
      max (l.foldr (fun e m => max e.queueNumber m) 0) c := by
  induction l with
  | nil => simp
  | cons x xs ih =>
    simp only [List.foldr_cons, ih]
    omega

/-- Every member's queueNumber is bounded by the max fold. -/
theorem mem_le_foldr_max (l : List QueueEntry) (e : QueueEntry) (he : e ∈ l) :
    e.queueNumber ≤ l.foldr (fun x m => max x.queueNumber m) 0 := by
  induction l with
  | nil => simp at he
  | cons x xs ih =>
    rcases List.mem_cons.mp he with rfl | h
    · simp only [List.foldr_cons]
      exact le_max_left _ _
    · simp only [List.foldr_cons]
      exact le_trans (ih h) (le_max_right _ _)

/-- C3 counterexample: on the trace submit(Ada) → callNext → sweep (6+
minutes later) → submit(Bob), the number 1 is assigned first to entry 10 and
afterwards again to entry 11: queue numbers are reused after the sweep
deletes the highest-numbered row, refuting "a number once assigned is never
assigned again". -/
theorem queueNumber_reuse_counterexample :
    handleSubmit ⟨[⟨1, 7, QueueStatus.open_⟩], []⟩ 7 "Ada" "advising" 10 =
      Except.ok ⟨[⟨1, 7, QueueStatus.open_⟩],
        [⟨10, 1, "Ada", "advising", 1, EntryStatus.waiting, none⟩]⟩ ∧
    callNextStudent 100 [⟨10, 1, "Ada", "advising", 1, EntryStatus.waiting, none⟩] 1 =
      ⟨[⟨10, 1, "Ada", "advising", 1, EntryStatus.called, some 100⟩],
       some ⟨10, 1, "Ada", "advising", 1, EntryStatus.waiting, none⟩⟩ ∧
    handle_unresponsive_students 500
        [⟨10, 1, "Ada", "advising", 1, EntryStatus.called, some 100⟩] = [] ∧
    handleSubmit ⟨[⟨1, 7, QueueStatus.open_⟩], []⟩ 7 "Bob" "forms" 11 =
      Except.ok ⟨[⟨1, 7, QueueStatus.open_⟩],
        [⟨11, 1, "Bob", "forms", 1, EntryStatus.waiting, none⟩]⟩ := by
  refine ⟨?_, ?_, ?_, ?_⟩ <;> rfl

/-- Appending an entry that carries the queue's next number advances the
next number by exactly one. -/
theorem get_next_append_fresh (l : List QueueEntry) (queueId : Nat)
    (e : QueueEntry) (hq : e.queueId = queueId)
    (hn : e.queueNumber = get_next_queue_number l queueId) :
    get_next_queue_number (l ++ [e]) queueId =
      get_next_queue_number l queueId + 1 := by
  unfold get_next_queue_number at hn ⊢
  rw [List.filter_append]
  have hpe : (e.queueId == queueId) = true := by simp [hq]
  simp only [List.filter_cons, List.filter_nil, hpe, if_true]
  rw [List.foldr_append]
  simp only [List.foldr_cons, List.foldr_nil]
  rw [foldr_max_shift]
  omega

/-- C3 amended: the next queue number is the queue's current maximum
queueNumber plus one (1 on an empty queue); it is strictly greater than
every queueNumber currently present in that queue, and a successful
submission appends an entry carrying it and advances the next number by
exactly one — so uninterrupted submissions receive sequential increasing
numbers starting at 1.  (Reuse after a sweep deletion is possible; see the
counterexample.) -/
theorem nextQueueNumber_max_plus_one (entries : List QueueEntry) (queueId : Nat)
    (st st' : DBState) (sid newId : Nat) (nm rs : String) (q : Queue) :
    ((entries.filter (fun e => e.queueId == queueId)) = [] →
      get_next_queue_number entries queueId = 1) ∧
    (∀ e ∈ entries, e.queueId = queueId →
      e.queueNumber < get_next_queue_number entries queueId) ∧
    (handleSubmit st sid nm rs newId = Except.ok st' →
      st.queues.filter
          (fun qq => qq.staffId == sid && qq.status == QueueStatus.open_) = [q] →
      st'.entries = st.entries ++
          [⟨newId, q.id, strTrim nm, strTrim rs, get_next_queue_number st.entries q.id,
            EntryStatus.waiting, none⟩] ∧
      get_next_queue_number st'.entries q.id =
        get_next_queue_number st.entries q.id + 1) := by
  refine ⟨?_, ?_, ?_⟩
  · intro h
    unfold get_next_queue_number
    rw [h]
    rfl
  · intro e he heq
    unfold get_next_queue_number
    have hmem : e ∈ entries.filter (fun x => x.queueId == queueId) :=
      List.mem_filter.mpr ⟨he, by simp [heq]⟩
    have := mem_le_foldr_max _ e hmem
    omega
  · intro hok hfilter
    unfold handleSubmit at hok
    by_cases hnm : strTrim nm == "" || strTrim rs == ""
    · rw [if_pos hnm] at hok
      exact absurd hok (by simp)
    · rw [if_neg hnm, hfilter] at hok
      simp only [Except.ok.injEq] at hok
      subst hok
      exact ⟨rfl, get_next_append_fresh st.entries q.id _ rfl rfl⟩

/-- Witness for the amended C3 theorem: on the empty queue the next number
is 1; with a single entry numbered 1 the next number exceeds 1; and after
Ada's submission into the empty queue the next number has advanced to the
previous next number plus one. -/
theorem nextQueueNumber_max_plus_one_witness :
    get_next_queue_number [] 1 = 1 ∧
    1 < get_next_queue_number
        [⟨10, 1, "Ada", "advising", 1, EntryStatus.waiting, none⟩] 1 ∧
    get_next_queue_number
        [⟨10, 1, "Ada", "advising", 1, EntryStatus.waiting, none⟩] 1 =
      get_next_queue_number [] 1 + 1 := by
  refine ⟨?_, ?_, ?_⟩
  · exact (nextQueueNumber_max_plus_one [] 1 ⟨[], []⟩ ⟨[], []⟩ 0 0 "" "" ⟨0, 0, QueueStatus.open_⟩).1 rfl
  · exact (nextQueueNumber_max_plus_one
        [⟨10, 1, "Ada", "advising", 1, EntryStatus.waiting, none⟩] 1
        ⟨[], []⟩ ⟨[], []⟩ 0 0 "" "" ⟨0, 0, QueueStatus.open_⟩).2.1
      ⟨10, 1, "Ada", "advising", 1, EntryStatus.waiting, none⟩ (by simp) rfl
  · exact ((nextQueueNumber_max_plus_one [] 1
        ⟨[⟨1, 7, QueueStatus.open_⟩], []⟩
        ⟨[⟨1, 7, QueueStatus.open_⟩],
          [⟨10, 1, "Ada", "advising", 1, EntryStatus.waiting, none⟩]⟩
        7 10 "Ada" "advising" ⟨1, 7, QueueStatus.open_⟩).2.2
      (by rfl) (by rfl)).2

/-- The sweep's Boolean deletion test holds exactly on called entries whose
calledAt is more than 5 minutes (300 s) before now. -/
theorem shouldRemove_iff (now : Nat) (e : QueueEntry) :
    shouldRemove now e = true ↔
      e.status = EntryStatus.called ∧
        ∃ t, e.calledAt = some t ∧ t + 300 < now := by
  unfold shouldRemove
  cases h : e.calledAt <;> simp [h]

/-- C4: handle_unresponsive_students keeps exactly the rows that are not
(called with calledAt more than 5 minutes old); in particular every row
whose status is not 'called' survives regardless of age. -/
theorem sweepUnresponsive_removes_stale (now : Nat) (entries : List QueueEntry)
    (e : QueueEntry) :
    (e ∈ handle_unresponsive_students now entries ↔
      e ∈ entries ∧
        ¬(e.status = EntryStatus.called ∧
          ∃ t, e.calledAt = some t ∧ t + 300 < now)) ∧
    (e.status ≠ EntryStatus.called → e ∈ entries →
      e ∈ handle_unresponsive_students now entries) := by
  constructor
  · unfold handle_unresponsive_students
    rw [List.mem_filter, Bool.not_eq_true']
    simp only [Bool.eq_false_iff, ne_eq, shouldRemove_iff]
  · intro hst hmem
    exact List.mem_filter.mpr ⟨hmem, by simp [shouldRemove, hst]⟩

/-- Witness for C4 at now = 360 s: the entry called at t = 0 (6 minutes ago)
is removed, the entry called at t = 240 (2 minutes ago) is kept, and an
old waiting entry is untouched. -/
theorem sweepUnresponsive_removes_stale_witness :
    (⟨1, 1, "A", "r", 1, EntryStatus.called, some 0⟩ : QueueEntry) ∉
        handle_unresponsive_students 360
          [⟨1, 1, "A", "r", 1, EntryStatus.called, some 0⟩,
           ⟨2, 1, "B", "s", 2, EntryStatus.called, some 240⟩,
           ⟨3, 1, "C", "t", 3, EntryStatus.waiting, none⟩] ∧
    (⟨2, 1, "B", "s", 2, EntryStatus.called, some 240⟩ : QueueEntry) ∈
        handle_unresponsive_students 360
          [⟨1, 1, "A", "r", 1, EntryStatus.called, some 0⟩,
           ⟨2, 1, "B", "s", 2, EntryStatus.called, some 240⟩,
           ⟨3, 1, "C", "t", 3, EntryStatus.waiting, none⟩] ∧
    (⟨3, 1, "C", "t", 3, EntryStatus.waiting, none⟩ : QueueEntry) ∈
        handle_unresponsive_students 360
          [⟨1, 1, "A", "r", 1, EntryStatus.called, some 0⟩,
           ⟨2, 1, "B", "s", 2, EntryStatus.called, some 240⟩,
           ⟨3, 1, "C", "t", 3, EntryStatus.waiting, none⟩] := by
  refine ⟨?_, ?_, ?_⟩
  · intro h
    exact ((sweepUnresponsive_removes_stale 360 _ _).1.mp h).2
      ⟨rfl, 0, rfl, by omega⟩
  · refine (sweepUnresponsive_removes_stale 360 _ _).1.mpr ⟨by simp, ?_⟩
    rintro ⟨-, t, ht, hlt⟩
    injection ht with h
    omega
  · exact (sweepUnresponsive_removes_stale 360 _ _).2 (by decide) (by simp)

/-- C5 counterexample: in the two-student scenario, after callNext turns
entry #1 into 'called', the recomputed position of entry #2 is not 1 —
called entries still count as active, so it stays 2. -/
theorem scenario_position_counterexample :
    handleSubmit ⟨[⟨1, 7, QueueStatus.open_⟩], []⟩ 7 "Ada" "advising" 10 =
      Except.ok ⟨[⟨1, 7, QueueStatus.open_⟩],
        [⟨10, 1, "Ada", "advising", 1, EntryStatus.waiting, none⟩]⟩ ∧
    handleSubmit ⟨[⟨1, 7, QueueStatus.open_⟩],
        [⟨10, 1, "Ada", "advising", 1, EntryStatus.waiting, none⟩]⟩
        7 "Bea" "essay" 11 =
      Except.ok ⟨[⟨1, 7, QueueStatus.open_⟩],
        [⟨10, 1, "Ada", "advising", 1, EntryStatus.waiting, none⟩,
         ⟨11, 1, "Bea", "essay", 2, EntryStatus.waiting, none⟩]⟩ ∧
    callNextStudent 60
        [⟨10, 1, "Ada", "advising", 1, EntryStatus.waiting, none⟩,
         ⟨11, 1, "Bea", "essay", 2, EntryStatus.waiting, none⟩] 1 =
      ⟨[⟨10, 1, "Ada", "advising", 1, EntryStatus.called, some 60⟩,
        ⟨11, 1, "Bea", "essay", 2, EntryStatus.waiting, none⟩],
       some ⟨10, 1, "Ada", "advising", 1, EntryStatus.waiting, none⟩⟩ ∧
    calculatePosition
        [⟨10, 1, "Ada", "advising", 1, EntryStatus.called, some 60⟩,
         ⟨11, 1, "Bea", "essay", 2, EntryStatus.waiting, none⟩] 1 2 ≠ 1 := by
  exact ⟨rfl, rfl, rfl, by decide⟩

/-- C5 amended: queue empty → Ada submits and gets queueNumber 1, position 1;
Bea submits and gets queueNumber 2, position 2; staff calls next, entry #1
becomes 'called' with calledAt set; the recomputed position of entry #2 is
still 2, because called entries count as active for position purposes. -/
theorem scenario_two_students_positions :
    handleSubmit ⟨[⟨1, 7, QueueStatus.open_⟩], []⟩ 7 "Ada" "advising" 10 =
      Except.ok ⟨[⟨1, 7, QueueStatus.open_⟩],
        [⟨10, 1, "Ada", "advising", 1, EntryStatus.waiting, none⟩]⟩ ∧
    calculatePosition
        [⟨10, 1, "Ada", "advising", 1, EntryStatus.waiting, none⟩] 1 1 = 1 ∧
    handleSubmit ⟨[⟨1, 7, QueueStatus.open_⟩],
        [⟨10, 1, "Ada", "advising", 1, EntryStatus.waiting, none⟩]⟩
        7 "Bea" "essay" 11 =
      Except.ok ⟨[⟨1, 7, QueueStatus.open_⟩],
        [⟨10, 1, "Ada", "advising", 1, EntryStatus.waiting, none⟩,
         ⟨11, 1, "Bea", "essay", 2, EntryStatus.waiting, none⟩]⟩ ∧
    calculatePosition
        [⟨10, 1, "Ada", "advising", 1, EntryStatus.waiting, none⟩,
         ⟨11, 1, "Bea", "essay", 2, EntryStatus.waiting, none⟩] 1 2 = 2 ∧
    callNextStudent 60
        [⟨10, 1, "Ada", "advising", 1, EntryStatus.waiting, none⟩,
         ⟨11, 1, "Bea", "essay", 2, EntryStatus.waiting, none⟩] 1 =
      ⟨[⟨10, 1, "Ada", "advising", 1, EntryStatus.called, some 60⟩,
        ⟨11, 1, "Bea", "essay", 2, EntryStatus.waiting, none⟩],
       some ⟨10, 1, "Ada", "advising", 1, EntryStatus.waiting, none⟩⟩ ∧
    calculatePosition
        [⟨10, 1, "Ada", "advising", 1, EntryStatus.called, some 60⟩,
         ⟨11, 1, "Bea", "essay", 2, EntryStatus.waiting, none⟩] 1 2 = 2 := by
  exact ⟨rfl, rfl, rfl, rfl, rfl, rfl⟩

/-- C6: submitting with valid fields while the selected staff member's only
queue is closed fails with the "queue closed" condition ("Queue
Unavailable" toast): the result is the error, so no entry is inserted and
the prior store is left unchanged (the model issues no write on this path,
and nothing is retried). -/
theorem handleSubmit_closed_queue (st : DBState) (sid newId : Nat)
    (nm rs : String) (q : Queue) :
    q ∈ st.queues → q.staffId = sid → q.status = QueueStatus.closed →
    (∀ q' ∈ st.queues, q'.staffId = sid → q' = q) →
    strTrim nm ≠ "" → strTrim rs ≠ "" →
    handleSubmit st sid nm rs newId = Except.error "Queue Unavailable" := by
  intro hq hsid hclosed huniq hnm hrs
  unfold handleSubmit
  rw [if_neg (by simp [hnm, hrs])]
  have hfilter : st.queues.filter
      (fun qq => qq.staffId == sid && qq.status == QueueStatus.open_) = [] := by
    rw [List.filter_eq_nil_iff]
    intro a ha
    simp only [Bool.and_eq_true, beq_iff_eq, not_and]
    intro ha1
    have := huniq a ha ha1
    subst this
    rw [hclosed]
    simp
  rw [hfilter]

/-- Witness for C6: one staff member (id 7) whose queue is closed; a valid
submission fails with the queue-closed error. -/
theorem handleSubmit_closed_queue_witness :
    handleSubmit ⟨[⟨1, 7, QueueStatus.closed⟩], []⟩ 7 "Ada" "advising" 10 =
      Except.error "Queue Unavailable" := by
  exact handleSubmit_closed_queue ⟨[⟨1, 7, QueueStatus.closed⟩], []⟩ 7 10
    "Ada" "advising" ⟨1, 7, QueueStatus.closed⟩
    (by simp) rfl rfl
    (by intro q' h _; simpa using h)
    (by decide) (by decide)

/-- A successful draw of generate_unique_staff_id is one of the candidate
strings and is not among the existing codes. -/
theorem generate_unique_staff_id_spec (cands : Nat → String)
    (existing : List String) :
    ∀ (fuel i : Nat) (s : String),
      generate_unique_staff_id cands existing i fuel = some s →
      s ∉ existing ∧ ∃ j, s = cands j := by
  intro fuel
  induction fuel with
  | zero =>
    intro i s h
    simp [generate_unique_staff_id] at h
  | succ n ih =>
    intro i s h
    rw [generate_unique_staff_id] at h
    by_cases hc : existing.contains (cands i)
    · rw [if_pos hc] at h
      exact ih (i + 1) s h
    · rw [if_neg hc] at h
      injection h with h
      subst h
      refine ⟨?_, i, rfl⟩
      intro hmem
      exact hc (List.elem_iff.mpr hmem)

/-- An uppercase hexadecimal character is an uppercase alphanumeric one. -/
theorem upperHex_upperAlnum (c : Char) (h : isUpperHexChar c = true) :
    isUpperAlnumChar c = true := by
  unfold isUpperHexChar at h
  unfold isUpperAlnumChar
  simp only [Bool.or_eq_true, Bool.and_eq_true, decide_eq_true_eq] at h ⊢
  rcases h with ⟨h1, h2⟩ | ⟨h1, h2⟩
  · exact Or.inl ⟨h1, h2⟩
  · exact Or.inr ⟨h1, le_trans h2 (by decide)⟩

/-- C7: when regenerateUniqueId succeeds for a staff member, the fresh code
is 8 characters of uppercase alphanumeric, differs from that member's
previous code, is not the code of any staff record at generation time, the
member's row now carries the fresh code, and no row carries the old code
any more (it is immediately invalid).  The candidate-shape hypothesis is
the character set of upper(substr(md5(...), 1, 8)); the two uniqueness
hypotheses are the table's primary-key and unique_id constraints. -/
theorem regenerateUniqueId_fresh_code (cands : Nat → String) (fuel : Nat)
    (staffList newList : List Staff) (staffId : Nat) (newCode : String)
    (s : Staff) :
    (∀ i, (cands i).length = 8 ∧ (cands i).data.all isUpperHexChar = true) →
    regenerateUniqueId cands fuel staffList staffId = some (newList, newCode) →
    s ∈ staffList → s.id = staffId →
    (∀ s' ∈ staffList, s'.id = staffId → s' = s) →
    (∀ s' ∈ staffList, s'.unique_id = s.unique_id → s' = s) →
    newCode.length = 8 ∧ newCode.data.all isUpperAlnumChar = true ∧
    newCode ≠ s.unique_id ∧
    (∀ s' ∈ staffList, s'.unique_id ≠ newCode) ∧
    (∃ s2 ∈ newList, s2.id = staffId ∧ s2.unique_id = newCode) ∧
    (∀ s' ∈ newList, s'.unique_id ≠ s.unique_id) := by
  intro hcands hreg hmem hid huid hucode
  unfold regenerateUniqueId at hreg
  cases hgen : generate_unique_staff_id cands
      (staffList.map (fun x => x.unique_id)) 0 fuel with
  | none =>
    rw [hgen] at hreg
    exact absurd hreg (by simp)
  | some code =>
    rw [hgen] at hreg
    simp only [Option.some.injEq, Prod.mk.injEq] at hreg
    obtain ⟨hl, hc⟩ := hreg
    subst hc
    subst hl
    obtain ⟨hnotin, j, hj⟩ :=
      generate_unique_staff_id_spec cands _ fuel 0 _ hgen
    have hne : code ≠ s.unique_id := by
      intro heq
      exact hnotin (heq ▸ List.mem_map_of_mem _ hmem)
    refine ⟨?_, ?_, hne, ?_, ?_, ?_⟩
    · rw [hj]
      exact (hcands j).1
    · rw [hj]
      have hall := (hcands j).2
      rw [List.all_eq_true] at hall ⊢
      intro x hx
      exact upperHex_upperAlnum x (hall x hx)
    · intro s' hs' heq
      apply hnotin
      rw [← heq]
      exact List.mem_map_of_mem _ hs'
    · refine ⟨(if s.id == staffId then { s with unique_id := code } else s),
        List.mem_map_of_mem _ hmem, ?_, ?_⟩ <;> simp [hid]
    · intro s' hs'
      rw [List.mem_map] at hs'
      obtain ⟨s0, hs0, rfl⟩ := hs'
      by_cases h0 : s0.id = staffId
      · have hs0s : s0 = s := huid s0 hs0 h0
        subst hs0s
        simpa [h0] using hne
      · simp only [beq_iff_eq, h0, if_false]
        intro heq
        exact h0 ((hucode s0 hs0 heq) ▸ hid)

/-- Witness for C7: one staff record with code FFFFFFFF; the candidate
stream always offers 0A1B2C3D, which is accepted, stored on the record, and
differs from the old code. -/
theorem regenerateUniqueId_fresh_code_witness :
    regenerateUniqueId (fun _ => "0A1B2C3D") 1
        [⟨1, "N", "e", "d", "FFFFFFFF"⟩] 1 =
      some ([⟨1, "N", "e", "d", "0A1B2C3D"⟩], "0A1B2C3D") ∧
    ("0A1B2C3D" : String) ≠ "FFFFFFFF" ∧
    ("0A1B2C3D" : String).length = 8 := by
  refine ⟨by decide, ?_, ?_⟩
  · exact (regenerateUniqueId_fresh_code (fun _ => "0A1B2C3D") 1
      [⟨1, "N", "e", "d", "FFFFFFFF"⟩] [⟨1, "N", "e", "d", "0A1B2C3D"⟩] 1
      "0A1B2C3D" ⟨1, "N", "e", "d", "FFFFFFFF"⟩
      (by
        intro i
        refine ⟨rfl, ?_⟩
        show ("0A1B2C3D" : String).data.all isUpperHexChar = true
        decide) (by decide) (by simp) rfl
      (by intro s' h _; simpa using h)
      (by intro s' h _; simpa using h)).2.2.1
  · rfl

/-- C8: skipStudent and completeVisit set the targeted row's status to
'skipped' / 'completed' respectively, with no status precondition (allowed
from any state, in particular both active ones); at every index the row's
id, queueNumber, studentName, reason and calledAt are unchanged, rows whose
id differs from the target keep their status, and the table's length is
preserved. -/
theorem skip_complete_only_status (entries : List QueueEntry)
    (studentId i : Nat) :
    (skipStudent entries studentId).length = entries.length ∧
    (completeVisit entries studentId).length = entries.length ∧
    (skipStudent entries studentId)[i]?.map (fun e => e.id) =
      entries[i]?.map (fun e => e.id) ∧
    (skipStudent entries studentId)[i]?.map (fun e => e.queueNumber) =
      entries[i]?.map (fun e => e.queueNumber) ∧
    (skipStudent entries studentId)[i]?.map (fun e => e.studentName) =
      entries[i]?.map (fun e => e.studentName) ∧
    (skipStudent entries studentId)[i]?.map (fun e => e.reason) =
      entries[i]?.map (fun e => e.reason) ∧
    (skipStudent entries studentId)[i]?.map (fun e => e.calledAt) =
      entries[i]?.map (fun e => e.calledAt) ∧
    (skipStudent entries studentId)[i]?.map (fun e => e.status) =
      entries[i]?.map (fun e =>
        if e.id = studentId then EntryStatus.skipped else e.status) ∧
    (completeVisit entries studentId)[i]?.map (fun e => e.id) =
      entries[i]?.map (fun e => e.id) ∧
    (completeVisit entries studentId)[i]?.map (fun e => e.queueNumber) =
      entries[i]?.map (fun e => e.queueNumber) ∧
    (completeVisit entries studentId)[i]?.map (fun e => e.studentName) =
      entries[i]?.map (fun e => e.studentName) ∧
    (completeVisit entries studentId)[i]?.map (fun e => e.reason) =
      entries[i]?.map (fun e => e.reason) ∧
    (completeVisit entries studentId)[i]?.map (fun e => e.calledAt) =
      entries[i]?.map (fun e => e.calledAt) ∧
    (completeVisit entries studentId)[i]?.map (fun e => e.status) =
      entries[i]?.map (fun e =>
        if e.id = studentId then EntryStatus.completed else e.status) := by
  unfold skipStudent completeVisit
  simp only [List.length_map, List.getElem?_map, true_and]
  cases entries[i]? with
  | none => simp
  | some e =>
    by_cases h : e.id = studentId <;>
      simp [skipUpdate, completeUpdate, h]

/-- Pointwise monotone Boolean predicates give monotone filter lengths. -/
theorem length_filter_mono (l : List QueueEntry) (p q : QueueEntry → Bool)
    (h : ∀ a ∈ l, p a = true → q a = true) :
    (l.filter p).length ≤ (l.filter q).length := by
  induction l with
  | nil => simp
  | cons a t ih =>
    have ht : (t.filter p).length ≤ (t.filter q).length :=
      ih (fun x hx hpx => h x (List.mem_cons_of_mem _ hx) hpx)
    by_cases hpa : p a = true
    · have hqa := h a (List.mem_cons_self _ _) hpa
      simp [List.filter_cons, hpa, hqa]
      omega
    · by_cases hqa : q a = true
      · simp [List.filter_cons, hpa, hqa]
        omega
      · simp [List.filter_cons, hpa, hqa]
        exact ht

/-- C9: among active entries of one queue, the computed position is
strictly monotone in queueNumber: a lower-numbered active entry has a
strictly smaller position. -/
theorem position_strict_mono (entries : List QueueEntry) (queueId : Nat)
    (e1 e2 : QueueEntry) :
    e1 ∈ entries → e2 ∈ entries →
    e1.queueId = queueId → e2.queueId = queueId →
    (e1.status = EntryStatus.waiting ∨ e1.status = EntryStatus.called) →
    (e2.status = EntryStatus.waiting ∨ e2.status = EntryStatus.called) →
    e1.queueNumber < e2.queueNumber →
    calculatePosition entries queueId e1.queueNumber <
      calculatePosition entries queueId e2.queueNumber := by
  intro h1 h2 hq1 hq2 hs1 hs2 hlt
  unfold calculatePosition
  obtain ⟨s, t, rfl⟩ := List.append_of_mem h1
  rw [List.filter_append, List.filter_append, List.filter_cons, List.filter_cons]
  have hp1 : (e1.queueId == queueId && e1.queueNumber < e1.queueNumber &&
      (e1.status == EntryStatus.waiting || e1.status == EntryStatus.called)) = false := by
    simp
  have hp2 : (e1.queueId == queueId && e1.queueNumber < e2.queueNumber &&
      (e1.status == EntryStatus.waiting || e1.status == EntryStatus.called)) = true := by
    rcases hs1 with h | h <;> simp [hq1, hlt, h]
  rw [hp1, hp2, if_neg Bool.false_ne_true, if_pos rfl]
  have hmono : ∀ (l : List QueueEntry),
      (l.filter (fun e => e.queueId == queueId &&
        e.queueNumber < e1.queueNumber &&
        (e.status == EntryStatus.waiting || e.status == EntryStatus.called))).length ≤
      (l.filter (fun e => e.queueId == queueId &&
        e.queueNumber < e2.queueNumber &&
        (e.status == EntryStatus.waiting || e.status == EntryStatus.called))).length := by
    intro l
    apply length_filter_mono
    intro a _ hpa
    simp only [Bool.and_eq_true, decide_eq_true_eq] at hpa ⊢
    exact ⟨⟨hpa.1.1, lt_trans hpa.1.2 hlt⟩, hpa.2⟩
  have hs' := hmono s
  have ht' := hmono t
  simp only [List.length_append, List.length_cons]
  omega

/-- Witness for C9: entries numbered 1 (waiting) and 2 (called) in queue 1;
the position at number 1 is strictly below the position at number 2. -/
theorem position_strict_mono_witness :
    calculatePosition
        [⟨1, 1, "A", "r", 1, EntryStatus.waiting, none⟩,
         ⟨2, 1, "B", "s", 2, EntryStatus.called, some 5⟩] 1 1 <
      calculatePosition
        [⟨1, 1, "A", "r", 1, EntryStatus.waiting, none⟩,
         ⟨2, 1, "B", "s", 2, EntryStatus.called, some 5⟩] 1 2 := by
  exact position_strict_mono
    [⟨1, 1, "A", "r", 1, EntryStatus.waiting, none⟩,
     ⟨2, 1, "B", "s", 2, EntryStatus.called, some 5⟩] 1
    ⟨1, 1, "A", "r", 1, EntryStatus.waiting, none⟩
    ⟨2, 1, "B", "s", 2, EntryStatus.called, some 5⟩
    (by simp) (by simp) rfl rfl (Or.inl rfl) (Or.inr rfl) (by decide)

/-- find? returns the unique matching row when the match is unique. -/
theorem find?_unique_code (l : List Staff) (target : String) (s : Staff)
    (hmem : s ∈ l) (huniq : ∀ s' ∈ l, s'.unique_id = s.unique_id → s' = s)
    (hs : s.unique_id = target) :
    l.find? (fun x => x.unique_id == target) = some s := by
  induction l with
  | nil => simp at hmem
  | cons a t ih =>
    by_cases ha : (a.unique_id == target) = true
    · have haeq : a = s := by
        apply huniq a (List.mem_cons_self _ _)
        rw [hs]
        simpa using ha
      subst haeq
      exact List.find?_cons_of_pos t ha
    · have hstep : (a :: t).find? (fun x => x.unique_id == target) =
          t.find? (fun x => x.unique_id == target) :=
        List.find?_cons_of_neg t ha
      rw [hstep]
      have hmem' : s ∈ t := by
        rcases List.mem_cons.mp hmem with rfl | h
        · exact absurd (by simp [hs]) ha
        · exact h
      exact ih hmem'
        (fun s' h' he => huniq s' (List.mem_cons_of_mem _ h') he)

/-- C10: staff access compares each stored unique_id against the entered
code trimmed of surrounding whitespace and uppercased: two inputs with the
same normalized form get the same outcome; a granted access returns a
stored record whose code equals the normalized input (so any case variant
of a stored uppercase code grants access to that record); and an input
whose normalized form matches no record is denied (none). -/
theorem staffAccess_normalizes (staffList : List Staff)
    (entered entered2 : String) (s : Staff) :
    (strUpper (strTrim entered) = strUpper (strTrim entered2) →
      staffAccess staffList entered = staffAccess staffList entered2) ∧
    (staffAccess staffList entered = some s →
      s ∈ staffList ∧ s.unique_id = strUpper (strTrim entered)) ∧
    ((∀ s' ∈ staffList, s'.unique_id ≠ strUpper (strTrim entered)) →
      staffAccess staffList entered = none) ∧
    (s ∈ staffList →
      (∀ s' ∈ staffList, s'.unique_id = s.unique_id → s' = s) →
      strUpper (strTrim entered) = s.unique_id →
      staffAccess staffList entered = some s) := by
  refine ⟨?_, ?_, ?_, ?_⟩
  · intro h
    unfold staffAccess
    rw [h]
  · intro h
    unfold staffAccess at h
    refine ⟨List.mem_of_find?_eq_some h, ?_⟩
    have := List.find?_some h
    simpa using this
  · intro h
    unfold staffAccess
    rw [List.find?_eq_none]
    intro x hx
    simp only [beq_iff_eq]
    exact h x hx
  · intro hmem huniq heq
    unfold staffAccess
    exact find?_unique_code staffList _ s hmem huniq heq.symm

/-- Witness for C10: the stored code AB12CD34 entered as " ab12cd34 "
grants access to its record; the code ZZZZZZZZ matches nothing and is
denied. -/
theorem staffAccess_normalizes_witness :
    staffAccess [⟨1, "N", "e", "d", "AB12CD34"⟩] " ab12cd34 " =
      some ⟨1, "N", "e", "d", "AB12CD34"⟩ ∧
    staffAccess [⟨1, "N", "e", "d", "AB12CD34"⟩] "ZZZZZZZZ" = none := by
  constructor
  · exact (staffAccess_normalizes [⟨1, "N", "e", "d", "AB12CD34"⟩]
      " ab12cd34 " " ab12cd34 " ⟨1, "N", "e", "d", "AB12CD34"⟩).2.2.2
      (by simp) (by intro s' h _; simpa using h) (by decide)
  · exact (staffAccess_normalizes [⟨1, "N", "e", "d", "AB12CD34"⟩]
      "ZZZZZZZZ" "ZZZZZZZZ" ⟨1, "N", "e", "d", "AB12CD34"⟩).2.2.1
      (by
        intro s' h
        simp only [List.mem_singleton] at h
        subst h
        decide)
